import Mathlib

/-!
Verification of the VPSC Python port (tensor algebra, Eshelby routine, and the
core full-constraint / self-consistent solvers) against its design
specification.  Floating-point arithmetic of the source is embedded as exact
real arithmetic; `np.linalg.norm` is the Euclidean norm, and `np.linalg.inv`
is modelled as the exact matrix inverse, failing exactly on singular input.
-/

namespace VPSC

open Classical Matrix

noncomputable section

/-! ## tensor.py : `voigt` -/

/-- The index table `ijv` of `voigt` in tensor.py: row `i` holds the tensor
index pair of Voigt component `i`. -/
def ijv : Fin 6 → Fin 3 × Fin 3 := ![(0, 0), (1, 1), (2, 2), (1, 2), (0, 2), (0, 1)]

/-- Embedding of `voigt(T1=v, opt=1)`: the write loop of tensor.py sets entries `(I1,I2)`
and `(I2,I1)` to `T1[i]` for each of the 6 pairs of `ijv`; this is its final
matrix, written out entrywise. -/
def voigt_opt1 (T1 : Fin 6 → ℝ) : Matrix (Fin 3) (Fin 3) ℝ :=
  Matrix.of ![![T1 0, T1 5, T1 4], ![T1 5, T1 1, T1 3], ![T1 4, T1 3, T1 2]]

/-- Embedding of `voigt(T2=M, opt=2)`: `T1[i] = T2[I1, I2]` over the `ijv` table. -/
def voigt_opt2 (T2 : Matrix (Fin 3) (Fin 3) ℝ) : Fin 6 → ℝ :=
  fun i => T2 (ijv i).1 (ijv i).2

/-! ## tensor.py : `chg_basis` (kdim = 6)

The array `B[:,:,n]` filled entry by entry in `chg_basis`; `Bmat n` is the
3x3 slice for basis index `n`. -/

def Bmat : Fin 6 → Matrix (Fin 3) (Fin 3) ℝ
  | 0 => Matrix.of ![![-1 / Real.sqrt 2, 0, 0],
                     ![0, 1 / Real.sqrt 2, 0],
                     ![0, 0, 0]]
  | 1 => Matrix.of ![![-1 / Real.sqrt 6, 0, 0],
                     ![0, -1 / Real.sqrt 6, 0],
                     ![0, 0, 2 / Real.sqrt 6]]
  | 2 => Matrix.of ![![0, 0, 0],
                     ![0, 0, 1 / Real.sqrt 2],
                     ![0, 1 / Real.sqrt 2, 0]]
  | 3 => Matrix.of ![![0, 0, 1 / Real.sqrt 2],
                     ![0, 0, 0],
                     ![1 / Real.sqrt 2, 0, 0]]
  | 4 => Matrix.of ![![0, 1 / Real.sqrt 2, 0],
                     ![1 / Real.sqrt 2, 0, 0],
                     ![0, 0, 0]]
  | 5 => Matrix.of ![![1 / Real.sqrt 3, 0, 0],
                     ![0, 1 / Real.sqrt 3, 0],
                     ![0, 0, 1 / Real.sqrt 3]]

/-- Embedding of `chg_basis(CE2=v, opt=1, kdim=6)`: `C2[i,j] = sum_n CE2[n] * B[i,j,n]`. -/
def chg_basis_opt1 (CE2 : Fin 6 → ℝ) : Matrix (Fin 3) (Fin 3) ℝ :=
  Matrix.of fun i j => ∑ n : Fin 6, CE2 n * Bmat n i j

/-- Embedding of `chg_basis(C2=M, opt=2, kdim=6)`: `CE2[n] = sum_ij C2[i,j] * B[i,j,n]`. -/
def chg_basis_opt2 (C2 : Matrix (Fin 3) (Fin 3) ℝ) : Fin 6 → ℝ :=
  fun n => ∑ i : Fin 3, ∑ j : Fin 3, C2 i j * Bmat n i j

/-! ## tensor.py : `lu_inverse`

`np.max(np.abs(A))` is `amax`; `np.linalg.inv` is modelled in exact
arithmetic: it fails exactly when the matrix is singular, and otherwise
returns the exact inverse. -/

/-- Largest-magnitude entry of a (nonempty) square matrix, `np.max(np.abs(A))`. -/
def amax {n : ℕ} (A : Matrix (Fin (n + 1)) (Fin (n + 1)) ℝ) : ℝ :=
  Finset.univ.sup' ⟨(0, 0), Finset.mem_univ _⟩
    fun p : Fin (n + 1) × Fin (n + 1) => |A p.1 p.2|

/-- Embedding of `lu_inverse(A)` of tensor.py: raise on `amax == 0`, normalize by `amax`,
invert (raising on a singular normalized matrix), then rescale by `amax`. -/
def lu_inverse {n : ℕ} (A : Matrix (Fin (n + 1)) (Fin (n + 1)) ℝ) :
    Except String (Matrix (Fin (n + 1)) (Fin (n + 1)) ℝ) :=
  if amax A = 0 then Except.error "Singular matrix in lu_inverse"
  else
    let A_norm := (amax A)⁻¹ • A
    if A_norm.det = 0 then Except.error "Singular matrix in lu_inverse"
    else Except.ok ((amax A)⁻¹ • A_norm⁻¹)

/-! ## src/eshelby.py : `eshelby_tensor` -/

/-- Embedding of `eshelby_tensor(*args, **kwargs)` of src/eshelby.py: ignores every
argument and returns `np.zeros((3, 3, 3, 3))`; it contains no failure path. -/
def eshelby_tensor {α : Type} (_args : α) : Fin 3 → Fin 3 → Fin 3 → Fin 3 → ℝ :=
  fun _ _ _ _ => 0

/-! ## src/core.py : configuration and the two solvers

The Python `config` dictionary, restricted to the keys `run_vpfc` and
`run_vpsc` read or write; each field holds the value after the `.get`
defaulting done in core.py. -/

/-- One entry of `config["phases"]` as built by readers.py, restricted to the
keys core.py reads plus the phase volume fraction `weight` that readers.py
stores (and core.py never reads). -/
structure Phase where
  ngrains : ℕ
  elastic_matrix : Matrix (Fin 6) (Fin 6) ℝ
  weight : ℝ

/-- The `config` dictionary restricted to the keys used by `run_vpfc` /
`run_vpsc`, after `.get` defaulting. -/
structure Config where
  applied_udot : Matrix (Fin 3) (Fin 3) ℝ
  iudot : Matrix (Fin 3) (Fin 3) ℤ
  eqincr : ℝ
  itmaxext : ℕ
  errs : ℝ
  phases : List Phase
  current_strain : Fin 6 → ℝ
  current_stress : Fin 6 → ℝ

/-- The applied strain increment in Voigt order `[11, 22, 33, 23, 13, 12]`,
`applied_udot[i,j] * eqincr`, as assembled identically in `run_vpfc` and
`run_vpsc`. -/
def dbar_applied (c : Config) : Fin 6 → ℝ :=
  ![c.applied_udot 0 0 * c.eqincr, c.applied_udot 1 1 * c.eqincr,
    c.applied_udot 2 2 * c.eqincr, c.applied_udot 1 2 * c.eqincr,
    c.applied_udot 0 2 * c.eqincr, c.applied_udot 0 1 * c.eqincr]

/-- Per-grain weight `weight = 1.0 / ngrains if ngrains > 0 else 1.0`. -/
def grain_weight (p : Phase) : ℝ := if 0 < p.ngrains then ((p.ngrains : ℝ))⁻¹ else 1

/-- The accumulated `sbar` of the grain loops of core.py: for each phase, for
each of its `ngrains` grains, add `weight * (elastic_matrix @ d)`. -/
def sbar_acc (d : Fin 6 → ℝ) (phases : List Phase) : Fin 6 → ℝ :=
  (phases.map fun p =>
    ∑ _igr ∈ Finset.range p.ngrains, grain_weight p • (p.elastic_matrix *ᵥ d)).sum

/-- The accumulated `total_weight` of the grain loops of core.py. -/
def total_weight (phases : List Phase) : ℝ :=
  (phases.map fun p => ∑ _igr ∈ Finset.range p.ngrains, grain_weight p).sum

/-- The averaged stress: `sbar /= total_weight` guarded by `total_weight > 0`. -/
def average_stress (d : Fin 6 → ℝ) (phases : List Phase) : Fin 6 → ℝ :=
  if 0 < total_weight phases then (total_weight phases)⁻¹ • sbar_acc d phases
  else sbar_acc d phases

/-- Return value and config mutation of `run_vpfc`. -/
structure VpfcResult where
  sbar : Fin 6 → ℝ
  dbar : Fin 6 → ℝ
  config : Config

/-- Embedding of `run_vpfc(config, step)` of src/core.py (the Taylor solver). -/
def run_vpfc (c : Config) : VpfcResult :=
  let dbar := dbar_applied c
  let sbar := average_stress dbar c.phases
  { sbar := sbar, dbar := dbar,
    config := { c with current_strain := c.current_strain + dbar,
                       current_stress := sbar } }

/-- Evaluation of `np.linalg.norm` on a 6-vector: the Euclidean norm. -/
def norm6 (v : Fin 6 → ℝ) : ℝ := Real.sqrt (∑ i, v i ^ 2)

/-- State of the outer loop of `run_vpsc`: the running `sbar`, `dbar`, the
`converged` flag, and (instrumentation of the `outer` counter printed by the
source) the number of outer iterations executed so far. -/
structure LoopState where
  sbar : Fin 6 → ℝ
  dbar : Fin 6 → ℝ
  converged : Bool
  iters : ℕ

/-- The body of `for outer in range(max_outer)` of `run_vpsc`: recompute
`sbar` as the grain-loop average over the applied strain increment, reset
`dbar` to the applied increment, and break (with `converged = True`) as soon
as `delta = norm(sbar - sbar_old) + norm(dbar - dbar_old) < tol`. -/
def vpscLoop (phases : List Phase) (d_app : Fin 6 → ℝ) (tol : ℝ) :
    ℕ → LoopState → LoopState
  | 0, st => st
  | fuel + 1, st =>
    let sbar := average_stress d_app phases
    let dbar := d_app
    let delta := norm6 (sbar - st.sbar) + norm6 (dbar - st.dbar)
    if delta < tol then
      { sbar := sbar, dbar := dbar, converged := true, iters := st.iters + 1 }
    else
      vpscLoop phases d_app tol fuel
        { sbar := sbar, dbar := dbar, converged := false, iters := st.iters + 1 }

/-- Return value and config mutation of `run_vpsc`, with the convergence flag
and the executed outer-iteration count. -/
structure VpscResult where
  sbar : Fin 6 → ℝ
  dbar : Fin 6 → ℝ
  converged : Bool
  iters : ℕ
  config : Config

/-- Embedding of `run_vpsc(config, step)` of src/core.py: initial guess `sbar = 0`,
`dbar = dbar_applied`, at most `itmaxext` outer iterations, then commit
`current_strain += dbar` and `current_stress = sbar` unconditionally. -/
def run_vpsc (c : Config) : VpscResult :=
  let d_app := dbar_applied c
  let final := vpscLoop c.phases d_app c.errs c.itmaxext
    { sbar := 0, dbar := d_app, converged := false, iters := 0 }
  { sbar := final.sbar, dbar := final.dbar, converged := final.converged,
    iters := final.iters,
    config := { c with current_strain := c.current_strain + final.dbar,
                       current_stress := final.sbar } }

/-- The aggregate stress recomputed by every outer iteration of `run_vpsc`
(and by `run_vpfc`): it depends only on the applied increment and phases. -/
def avg_sbar (c : Config) : Fin 6 → ℝ := average_stress (dbar_applied c) c.phases

end

/-! ## Loop characterization lemmas -/

lemma norm6_zero : norm6 0 = 0 := by simp [norm6]

lemma norm6_sub_self (v : Fin 6 → ℝ) : norm6 (v - v) = 0 := by simp [norm6]

lemma vpscLoop_fix (phases : List Phase) (d_app : Fin 6 → ℝ) (tol : ℝ) (fuel : ℕ)
    (st : LoopState) (hs : st.sbar = average_stress d_app phases) (hd : st.dbar = d_app)
    (ht : 0 < tol) :
    vpscLoop phases d_app tol (fuel + 1) st =
      { sbar := average_stress d_app phases, dbar := d_app, converged := true,
        iters := st.iters + 1 } := by
  simp [vpscLoop, hs, hd, norm6_zero, ht]

lemma vpscLoop_state (phases : List Phase) (d_app : Fin 6 → ℝ) (tol : ℝ) :
    ∀ fuel st, (vpscLoop phases d_app tol (fuel + 1) st).sbar = average_stress d_app phases ∧
      (vpscLoop phases d_app tol (fuel + 1) st).dbar = d_app := by
  intro fuel
  induction fuel with
  | zero =>
    intro st
    by_cases h : norm6 (average_stress d_app phases - st.sbar) + norm6 (d_app - st.dbar) < tol <;>
      simp [vpscLoop, h]
  | succ n ih =>
    intro st
    by_cases h : norm6 (average_stress d_app phases - st.sbar) + norm6 (d_app - st.dbar) < tol
    · simp [vpscLoop, h]
    · rw [vpscLoop]
      simp only [h, if_false]
      exact ih _

lemma vpscLoop_iters_le (phases : List Phase) (d_app : Fin 6 → ℝ) (tol : ℝ) :
    ∀ fuel st, (vpscLoop phases d_app tol fuel st).iters ≤ st.iters + fuel := by
  intro fuel
  induction fuel with
  | zero => intro st; simp [vpscLoop]
  | succ n ih =>
    intro st
    by_cases h : norm6 (average_stress d_app phases - st.sbar) + norm6 (d_app - st.dbar) < tol
    · simp [vpscLoop, h]
    · rw [vpscLoop]
      simp only [h, if_false]
      calc (vpscLoop phases d_app tol n _).iters ≤ st.iters + 1 + n := ih _
        _ = st.iters + (n + 1) := by omega

lemma run_vpsc_zero_cap (c : Config) (h : c.itmaxext = 0) :
    run_vpsc c =
      { sbar := 0, dbar := dbar_applied c, converged := false, iters := 0,
        config := { c with current_strain := c.current_strain + dbar_applied c,
                           current_stress := 0 } } := by
  simp [run_vpsc, h, vpscLoop]

lemma run_vpsc_state (c : Config) (h : 1 ≤ c.itmaxext) :
    (run_vpsc c).sbar = avg_sbar c ∧ (run_vpsc c).dbar = dbar_applied c := by
  obtain ⟨k, hk⟩ : ∃ k, c.itmaxext = k + 1 := ⟨c.itmaxext - 1, by omega⟩
  have := vpscLoop_state c.phases (dbar_applied c) c.errs k
    { sbar := 0, dbar := dbar_applied c, converged := false, iters := 0 }
  constructor <;> simp [run_vpsc, hk, avg_sbar, this.1, this.2]

lemma run_vpsc_iters_le (c : Config) : (run_vpsc c).iters ≤ c.itmaxext := by
  have := vpscLoop_iters_le c.phases (dbar_applied c) c.errs c.itmaxext
    { sbar := 0, dbar := dbar_applied c, converged := false, iters := 0 }
  simpa [run_vpsc] using this

lemma run_vpsc_converge_first (c : Config) (h1 : 1 ≤ c.itmaxext)
    (h2 : norm6 (avg_sbar c) < c.errs) :
    run_vpsc c =
      { sbar := avg_sbar c, dbar := dbar_applied c, converged := true, iters := 1,
        config := { c with current_strain := c.current_strain + dbar_applied c,
                           current_stress := avg_sbar c } } := by
  obtain ⟨k, hk⟩ : ∃ k, c.itmaxext = k + 1 := ⟨c.itmaxext - 1, by omega⟩
  have h2a : norm6 (average_stress (dbar_applied c) c.phases) < c.errs := by
    simpa [avg_sbar] using h2
  simp [run_vpsc, hk, vpscLoop, norm6_zero, h2a, avg_sbar]

lemma run_vpsc_cap_one_not_converged (c : Config) (h1 : c.itmaxext = 1)
    (h2 : ¬ norm6 (avg_sbar c) < c.errs) :
    run_vpsc c =
      { sbar := avg_sbar c, dbar := dbar_applied c, converged := false, iters := 1,
        config := { c with current_strain := c.current_strain + dbar_applied c,
                           current_stress := avg_sbar c } } := by
  have h2a : ¬ norm6 (average_stress (dbar_applied c) c.phases) < c.errs := by
    simpa [avg_sbar] using h2
  simp [run_vpsc, h1, vpscLoop, norm6_zero, h2a, avg_sbar]

lemma run_vpsc_converge_second (c : Config) (h1 : 2 ≤ c.itmaxext)
    (h2 : ¬ norm6 (avg_sbar c) < c.errs) (h3 : 0 < c.errs) :
    run_vpsc c =
      { sbar := avg_sbar c, dbar := dbar_applied c, converged := true, iters := 2,
        config := { c with current_strain := c.current_strain + dbar_applied c,
                           current_stress := avg_sbar c } } := by
  obtain ⟨k, hk⟩ : ∃ k, c.itmaxext = (k + 1) + 1 := ⟨c.itmaxext - 2, by omega⟩
  have h2a : ¬ norm6 (average_stress (dbar_applied c) c.phases) < c.errs := by
    simpa [avg_sbar] using h2
  simp [run_vpsc, hk, vpscLoop, norm6_zero, h2a, h3, avg_sbar]

lemma run_vpsc_config (c : Config) (h : 1 ≤ c.itmaxext) :
    (run_vpsc c).config =
      { c with current_strain := c.current_strain + dbar_applied c,
               current_stress := avg_sbar c } := by
  obtain ⟨k, hk⟩ : ∃ k, c.itmaxext = k + 1 := ⟨c.itmaxext - 1, by omega⟩
  have := vpscLoop_state c.phases (dbar_applied c) c.errs k
    { sbar := 0, dbar := dbar_applied c, converged := false, iters := 0 }
  simp [run_vpsc, hk, avg_sbar, this.1, this.2]

/-! ## Averaging lemmas for the grain loops -/

lemma total_weight_all_pos (phases : List Phase) (h : ∀ p ∈ phases, 0 < p.ngrains) :
    total_weight phases = phases.length := by
  induction phases with
  | nil => simp [total_weight]
  | cons p ps ih =>
    have hp : 0 < p.ngrains := h p (by simp)
    have hps : ∀ q ∈ ps, 0 < q.ngrains := fun q hq => h q (by simp [hq])
    have hne : ((p.ngrains : ℝ)) ≠ 0 := Nat.cast_ne_zero.mpr hp.ne'
    have hterm : (∑ _igr ∈ Finset.range p.ngrains, grain_weight p) = 1 := by
      simp [Finset.sum_const, grain_weight, hp, nsmul_eq_mul, mul_inv_cancel₀ hne]
    simp only [total_weight, List.map_cons, List.sum_cons] at ih ⊢
    rw [hterm, ih hps]
    simp [List.length_cons]
    ring

lemma sbar_acc_all_pos (d : Fin 6 → ℝ) (phases : List Phase)
    (h : ∀ p ∈ phases, 0 < p.ngrains) :
    sbar_acc d phases = (phases.map fun p => p.elastic_matrix *ᵥ d).sum := by
  induction phases with
  | nil => simp [sbar_acc]
  | cons p ps ih =>
    have hp : 0 < p.ngrains := h p (by simp)
    have hps : ∀ q ∈ ps, 0 < q.ngrains := fun q hq => h q (by simp [hq])
    have hne : ((p.ngrains : ℝ)) ≠ 0 := Nat.cast_ne_zero.mpr hp.ne'
    have hterm : (∑ _igr ∈ Finset.range p.ngrains, grain_weight p • (p.elastic_matrix *ᵥ d)) =
        p.elastic_matrix *ᵥ d := by
      rw [Finset.sum_const, Finset.card_range, grain_weight, if_pos hp]
      rw [← Nat.cast_smul_eq_nsmul ℝ, smul_smul, mul_inv_cancel₀ hne, one_smul]
    simp only [sbar_acc, List.map_cons, List.sum_cons] at ih ⊢
    rw [hterm, ih hps]

lemma average_stress_all_pos (d : Fin 6 → ℝ) (phases : List Phase)
    (h : ∀ p ∈ phases, 0 < p.ngrains) :
    average_stress d phases =
      ((phases.length : ℝ))⁻¹ • (phases.map fun p => p.elastic_matrix *ᵥ d).sum := by
  cases phases with
  | nil => simp [average_stress, total_weight, sbar_acc]
  | cons p ps =>
    have hlen : (0 : ℝ) < (((p :: ps).length : ℝ)) := by
      have : 0 < (p :: ps).length := by simp
      exact_mod_cast this
    rw [average_stress, total_weight_all_pos _ h, sbar_acc_all_pos _ _ h, if_pos hlen]

lemma average_stress_single (d : Fin 6 → ℝ) (p : Phase) (hp : 0 < p.ngrains) :
    average_stress d [p] = p.elastic_matrix *ᵥ d := by
  rw [average_stress_all_pos d [p] (by simpa using hp)]
  simp

/-! ## Concrete configurations used as test inputs -/

noncomputable section

/-- A single-grain phase with identity elastic stiffness. -/
def phase_id : Phase := { ngrains := 1, elastic_matrix := 1, weight := 1 }

/-- Uniaxial tension velocity gradient: component (0,0) = 1. -/
def udot_tension : Matrix (Fin 3) (Fin 3) ℝ :=
  Matrix.of ![![1, 0, 0], ![0, 0, 0], ![0, 0, 0]]

/-- All components flagged as strain-rate imposed. -/
def iudot_all : Matrix (Fin 3) (Fin 3) ℤ :=
  Matrix.of ![![1, 1, 1], ![1, 1, 1], ![1, 1, 1]]

/-- Tension test with the outer iteration cap set to 1. -/
def cfgCap1 : Config :=
  { applied_udot := udot_tension, iudot := iudot_all, eqincr := 1, itmaxext := 1,
    errs := 1 / 1000000, phases := [phase_id], current_strain := 0, current_stress := 0 }

/-- An isotropic elastic stiffness in Voigt form (C11 = 3, C12 = 1, C44 = 1,
satisfying C11 - C12 = 2 C44). -/
def elastic_iso : Matrix (Fin 6) (Fin 6) ℝ :=
  Matrix.of ![![3, 1, 1, 0, 0, 0], ![1, 3, 1, 0, 0, 0], ![1, 1, 3, 0, 0, 0],
              ![0, 0, 0, 1, 0, 0], ![0, 0, 0, 0, 1, 0], ![0, 0, 0, 0, 0, 1]]

/-- A single-grain phase with the isotropic stiffness. -/
def phase_iso : Phase := { ngrains := 1, elastic_matrix := elastic_iso, weight := 1 }

/-- Simple shear velocity gradient: component (1,2) = 1. -/
def udot_shear : Matrix (Fin 3) (Fin 3) ℝ :=
  Matrix.of ![![0, 0, 0], ![0, 0, 1], ![0, 0, 0]]

/-- Isotropic single-phase aggregate under shear, default-like caps. -/
def cfgIso : Config :=
  { applied_udot := udot_shear, iudot := iudot_all, eqincr := 1, itmaxext := 50,
    errs := 1 / 100000, phases := [phase_iso], current_strain := 0, current_stress := 0 }

/-- Mixed boundary conditions: diagonal strain-rate components imposed
(iudot = 1), off-diagonal components stress-imposed (iudot = 0). -/
def udot_mixed : Matrix (Fin 3) (Fin 3) ℝ :=
  Matrix.of ![![1, 0, 0], ![0, -(1 / 2), 0], ![0, 0, -(1 / 2)]]

/-- Flags for 3 strain-rate-imposed and 3 stress-imposed components. -/
def iudot_mixed : Matrix (Fin 3) (Fin 3) ℤ :=
  Matrix.of ![![1, 0, 0], ![0, 1, 0], ![0, 0, 1]]

/-- Mixed boundary condition configuration. -/
def cfgMixed : Config :=
  { applied_udot := udot_mixed, iudot := iudot_mixed, eqincr := 1 / 1000, itmaxext := 50,
    errs := 1 / 100000, phases := [phase_id], current_strain := 0, current_stress := 0 }

/-- Tension test with a zero outer iteration cap. -/
def cfgCap0 : Config := { cfgCap1 with itmaxext := 0 }

/-- Phase of volume fraction 3/4 with identity stiffness. -/
def phase_soft : Phase := { ngrains := 1, elastic_matrix := 1, weight := 3 / 4 }

/-- Phase of volume fraction 1/4 with stiffness 3x identity. -/
def phase_stiff : Phase :=
  { ngrains := 1, elastic_matrix := (3 : ℝ) • (1 : Matrix (Fin 6) (Fin 6) ℝ), weight := 1 / 4 }

/-- Two-phase aggregate with unequal volume fractions. -/
def cfgTwoPhase : Config :=
  { applied_udot := udot_tension, iudot := iudot_all, eqincr := 1, itmaxext := 50,
    errs := 1 / 100000, phases := [phase_soft, phase_stiff],
    current_strain := 0, current_stress := 0 }

end

/-! ## Index-reduction helpers for vector literals -/

@[simp] lemma cv6_2 {A : Type} (a : A) (u : Fin 5 → A) : vecCons a u 2 = u 1 := rfl

@[simp] lemma cv6_3 {A : Type} (a : A) (u : Fin 5 → A) : vecCons a u 3 = u 2 := rfl

@[simp] lemma cv6_4 {A : Type} (a : A) (u : Fin 5 → A) : vecCons a u 4 = u 3 := rfl

@[simp] lemma cv6_5 {A : Type} (a : A) (u : Fin 5 → A) : vecCons a u 5 = u 4 := rfl

@[simp] lemma cv5_1 {A : Type} (a : A) (u : Fin 4 → A) : vecCons a u 1 = u 0 := rfl

@[simp] lemma cv5_2 {A : Type} (a : A) (u : Fin 4 → A) : vecCons a u 2 = u 1 := rfl

@[simp] lemma cv5_3 {A : Type} (a : A) (u : Fin 4 → A) : vecCons a u 3 = u 2 := rfl

@[simp] lemma cv5_4 {A : Type} (a : A) (u : Fin 4 → A) : vecCons a u 4 = u 3 := rfl

@[simp] lemma cv4_1 {A : Type} (a : A) (u : Fin 3 → A) : vecCons a u 1 = u 0 := rfl

@[simp] lemma cv4_2 {A : Type} (a : A) (u : Fin 3 → A) : vecCons a u 2 = u 1 := rfl

@[simp] lemma cv4_3 {A : Type} (a : A) (u : Fin 3 → A) : vecCons a u 3 = u 2 := rfl

@[simp] lemma cv3_1 {A : Type} (a : A) (u : Fin 2 → A) : vecCons a u 1 = u 0 := rfl

@[simp] lemma cv3_2 {A : Type} (a : A) (u : Fin 2 → A) : vecCons a u 2 = u 1 := rfl

@[simp] lemma cv2_1 {A : Type} (a : A) (u : Fin 1 → A) : vecCons a u 1 = u 0 := rfl

/-! ## Evaluation of the concrete configurations -/

lemma dbar_cfgCap1 : dbar_applied cfgCap1 = ![1, 0, 0, 0, 0, 0] := by
  funext i
  fin_cases i <;> simp [dbar_applied, cfgCap1, udot_tension, Matrix.vecHead, Matrix.vecTail]

lemma avg_cfgCap1 : avg_sbar cfgCap1 = ![1, 0, 0, 0, 0, 0] := by
  rw [avg_sbar, show cfgCap1.phases = [phase_id] from rfl,
    average_stress_single _ _ (by norm_num [phase_id]),
    show phase_id.elastic_matrix = 1 from rfl, Matrix.one_mulVec, dbar_cfgCap1]

lemma norm6_e0 : norm6 ![1, 0, 0, 0, 0, 0] = 1 := by
  simp [norm6, Fin.sum_univ_six, Matrix.vecHead, Matrix.vecTail]

lemma dbar_cfgIso : dbar_applied cfgIso = ![0, 0, 0, 1, 0, 0] := by
  funext i
  fin_cases i <;> simp [dbar_applied, cfgIso, udot_shear, Matrix.vecHead, Matrix.vecTail]

lemma avg_cfgIso : avg_sbar cfgIso = ![0, 0, 0, 1, 0, 0] := by
  rw [avg_sbar, show cfgIso.phases = [phase_iso] from rfl,
    average_stress_single _ _ (by norm_num [phase_iso]),
    show phase_iso.elastic_matrix = elastic_iso from rfl, dbar_cfgIso]
  funext i
  fin_cases i <;>
    simp [elastic_iso, Matrix.mulVec, Matrix.dotProduct, Fin.sum_univ_six,
      Matrix.vecHead, Matrix.vecTail]

lemma norm6_e3 : norm6 ![0, 0, 0, 1, 0, 0] = 1 := by
  simp [norm6, Fin.sum_univ_six, Matrix.vecHead, Matrix.vecTail]

lemma dbar_cfgTwoPhase : dbar_applied cfgTwoPhase = ![1, 0, 0, 0, 0, 0] := dbar_cfgCap1

lemma avg_cfgTwoPhase : avg_sbar cfgTwoPhase = ![2, 0, 0, 0, 0, 0] := by
  rw [avg_sbar, show cfgTwoPhase.phases = [phase_soft, phase_stiff] from rfl,
    average_stress_all_pos _ _
      (by simp [List.forall_mem_cons, phase_soft, phase_stiff]),
    show dbar_applied cfgTwoPhase = ![1, 0, 0, 0, 0, 0] from dbar_cfgCap1]
  funext i
  fin_cases i <;>
    simp [phase_soft, phase_stiff, Matrix.one_mulVec, Matrix.smul_mulVec_assoc,
      Matrix.vecHead, Matrix.vecTail] <;> norm_num

/-! ## Claims about src/core.py -/

/-- C1: the spec claims mixed boundary conditions resolve the components not
directly imposed self-consistently (never defaulting them to zero).  In the
code the `iudot` flags are read but never used: every observable output of
`run_vpsc` is invariant under arbitrary replacement of `iudot`, and on a mixed
configuration (3 strain-rate components imposed, 3 stress components flagged)
the three stress-flagged components of the returned strain rate are exactly
the applied entries, i.e. zero — defaulted, not resolved. -/
theorem claim_C1_iudot_ignored :
    (∀ (c : Config) (iud : Matrix (Fin 3) (Fin 3) ℤ),
      (run_vpsc { c with iudot := iud }).sbar = (run_vpsc c).sbar ∧
      (run_vpsc { c with iudot := iud }).dbar = (run_vpsc c).dbar ∧
      (run_vpsc { c with iudot := iud }).converged = (run_vpsc c).converged ∧
      (run_vpsc { c with iudot := iud }).iters = (run_vpsc c).iters) ∧
    ((run_vpsc cfgMixed).dbar 3 = 0 ∧ (run_vpsc cfgMixed).dbar 4 = 0 ∧
      (run_vpsc cfgMixed).dbar 5 = 0) := by
  refine ⟨fun c iud => ⟨rfl, rfl, rfl, rfl⟩, ?_⟩
  have hd := (run_vpsc_state cfgMixed (by norm_num [cfgMixed])).2
  rw [hd]
  refine ⟨?_, ?_, ?_⟩ <;>
    simp [dbar_applied, cfgMixed, udot_mixed, Matrix.vecHead, Matrix.vecTail]

/-- C2 (amended): a single-phase aggregate whose first-iteration response is
at least the tolerance converges in exactly two outer iterations (not one),
and the returned average stress equals the elastic stiffness contracted with
the strain rate times the time increment, exactly. -/
theorem claim_C2_single_phase_elastic (c : Config) (p : Phase)
    (hph : c.phases = [p]) (hg : 0 < p.ngrains) (hcap : 2 ≤ c.itmaxext)
    (hpos : 0 < c.errs) (hres : c.errs ≤ norm6 (avg_sbar c)) :
    (run_vpsc c).converged = true ∧ (run_vpsc c).iters = 2 ∧
      (run_vpsc c).sbar = p.elastic_matrix *ᵥ dbar_applied c := by
  have h2 : ¬ norm6 (avg_sbar c) < c.errs := not_lt.mpr hres
  rw [run_vpsc_converge_second c hcap h2 hpos]
  refine ⟨rfl, rfl, ?_⟩
  rw [avg_sbar, hph, average_stress_single _ _ hg]

/-- C2 counterexample: a single-phase aggregate of identical grains with an
isotropic elastic stiffness under a nonzero imposed shear rate converges, but
in two outer iterations, not one as the claim states. -/
theorem claim_C2_counterexample :
    (run_vpsc cfgIso).converged = true ∧ (run_vpsc cfgIso).iters = 2 ∧
      ¬ (run_vpsc cfgIso).iters = 1 := by
  have hres : cfgIso.errs ≤ norm6 (avg_sbar cfgIso) := by
    rw [avg_cfgIso, norm6_e3]; norm_num [cfgIso]
  rw [run_vpsc_converge_second cfgIso (by norm_num [cfgIso]) (not_lt.mpr hres)
    (by norm_num [cfgIso])]
  norm_num

/-- Witness for C2: the amended statement holds on the concrete isotropic
shear configuration. -/
theorem claim_C2_witness :
    cfgIso.phases = [phase_iso] ∧ 0 < phase_iso.ngrains ∧ 2 ≤ cfgIso.itmaxext ∧
      0 < cfgIso.errs ∧ cfgIso.errs ≤ norm6 (avg_sbar cfgIso) ∧
      ((run_vpsc cfgIso).converged = true ∧ (run_vpsc cfgIso).iters = 2 ∧
        (run_vpsc cfgIso).sbar = phase_iso.elastic_matrix *ᵥ dbar_applied cfgIso) :=
  ⟨rfl, by norm_num [phase_iso], by norm_num [cfgIso], by norm_num [cfgIso],
    by rw [avg_cfgIso, norm6_e3]; norm_num [cfgIso],
    claim_C2_single_phase_elastic cfgIso phase_iso rfl (by norm_num [phase_iso])
      (by norm_num [cfgIso]) (by norm_num [cfgIso])
      (by rw [avg_cfgIso, norm6_e3]; norm_num [cfgIso])⟩

/-- C3: with the outer cap set to 1 and a first-iteration residual at least
the tolerance, `run_vpsc` stops after exactly one outer iteration with the
convergence flag false (a warning is printed, not success), the residual of
the returned state is still above the tolerance, and the outer loop never
executes more than the cap for any configuration. -/
theorem claim_C3_cap_one (c : Config) (h1 : c.itmaxext = 1)
    (hres : c.errs ≤ norm6 (avg_sbar c)) :
    (run_vpsc c).converged = false ∧ (run_vpsc c).iters = 1 ∧
      c.errs ≤ norm6 ((run_vpsc c).sbar) ∧
      ∀ c2 : Config, (run_vpsc c2).iters ≤ c2.itmaxext := by
  have h2 : ¬ norm6 (avg_sbar c) < c.errs := not_lt.mpr hres
  rw [run_vpsc_cap_one_not_converged c h1 h2]
  exact ⟨rfl, rfl, hres, fun c2 => run_vpsc_iters_le c2⟩

/-- Witness for C3: the concrete cap-1 tension configuration. -/
theorem claim_C3_witness :
    cfgCap1.itmaxext = 1 ∧ cfgCap1.errs ≤ norm6 (avg_sbar cfgCap1) ∧
      ((run_vpsc cfgCap1).converged = false ∧ (run_vpsc cfgCap1).iters = 1 ∧
        cfgCap1.errs ≤ norm6 ((run_vpsc cfgCap1).sbar) ∧
        ∀ c2 : Config, (run_vpsc c2).iters ≤ c2.itmaxext) :=
  ⟨rfl, by rw [avg_cfgCap1, norm6_e0]; norm_num [cfgCap1],
    claim_C3_cap_one cfgCap1 rfl
      (by rw [avg_cfgCap1, norm6_e0]; norm_num [cfgCap1])⟩

/-- C4 (amended): whenever the outer iteration cap is at least 1 (the cap-0
case differs: the self-consistent path then returns a zero stress), the
self-consistent solver and the Taylor solver return identical stress and
strain-rate pairs and leave identical configuration state: both compute every
grain stress as the elastic matrix applied to the applied strain increment. -/
theorem claim_C4_taylor_equiv (c : Config) (h : 1 ≤ c.itmaxext) :
    (run_vpfc c).sbar = (run_vpsc c).sbar ∧ (run_vpfc c).dbar = (run_vpsc c).dbar ∧
      (run_vpfc c).config = (run_vpsc c).config := by
  rw [(run_vpsc_state c h).1, (run_vpsc_state c h).2, run_vpsc_config c h]
  exact ⟨rfl, rfl, rfl⟩

/-- C4 counterexample: with the outer cap set to 0 the two solvers disagree
(`run_vpsc` returns the zero initial stress, `run_vpfc` the averaged elastic
stress), so the equivalence does not hold for every configuration. -/
theorem claim_C4_counterexample :
    ¬ ((run_vpfc cfgCap0).sbar = (run_vpsc cfgCap0).sbar ∧
       (run_vpfc cfgCap0).dbar = (run_vpsc cfgCap0).dbar ∧
       (run_vpfc cfgCap0).config = (run_vpsc cfgCap0).config) := by
  intro h
  have hs := h.1
  have hB : (run_vpsc cfgCap0).sbar = 0 := by rw [run_vpsc_zero_cap cfgCap0 rfl]
  have hA : (run_vpfc cfgCap0).sbar = ![1, 0, 0, 0, 0, 0] := by
    rw [show (run_vpfc cfgCap0).sbar = avg_sbar cfgCap1 from rfl, avg_cfgCap1]
  rw [hA, hB] at hs
  have h0 := congrFun hs 0
  norm_num at h0

/-- Witness for C4: the amended equivalence holds on the concrete cap-1
tension configuration. -/
theorem claim_C4_witness :
    1 ≤ cfgCap1.itmaxext ∧
      ((run_vpfc cfgCap1).sbar = (run_vpsc cfgCap1).sbar ∧
       (run_vpfc cfgCap1).dbar = (run_vpsc cfgCap1).dbar ∧
       (run_vpfc cfgCap1).config = (run_vpsc cfgCap1).config) :=
  ⟨by norm_num [cfgCap1], claim_C4_taylor_equiv cfgCap1 (by norm_num [cfgCap1])⟩

/-- Modelled from the spec: "the weighted sum of the individual grain
stresses, with weights equal to the grain volume fractions (phase volume
fraction times per-grain weight within the phase)"; per-grain weights within
a phase are uniform `1/ngrains`.  The code has no such averaging; this is the
spec-side formula used to compare against the code's output. -/
noncomputable def spec_weighted_stress (c : Config) : Fin 6 → ℝ :=
  (c.phases.map fun p =>
    ∑ _igr ∈ Finset.range p.ngrains,
      (p.weight * ((p.ngrains : ℝ))⁻¹) • (p.elastic_matrix *ᵥ dbar_applied c)).sum

/-- C5 (amended): the aggregate average stress returned by the averaging step
is the weighted sum of the individual grain stresses with weights
`1/(number of phases × grains in the phase)` — i.e. phases are averaged with
equal weights; the configured phase volume fractions are ignored. -/
theorem claim_C5_equal_phase_weights (c : Config) (hcap : 1 ≤ c.itmaxext)
    (hg : ∀ p ∈ c.phases, 0 < p.ngrains) :
    (run_vpsc c).sbar =
      (c.phases.map fun p =>
        ∑ _igr ∈ Finset.range p.ngrains,
          (((c.phases.length : ℝ)) * ((p.ngrains : ℝ)))⁻¹ •
            (p.elastic_matrix *ᵥ dbar_applied c)).sum := by
  rw [(run_vpsc_state c hcap).1, avg_sbar, average_stress_all_pos _ _ hg,
    List.smul_sum, List.map_map]
  apply congrArg
  apply List.map_congr_left
  intro p hp
  have hn : ((p.ngrains : ℝ)) ≠ 0 := Nat.cast_ne_zero.mpr (hg p hp).ne'
  have hlen : ((c.phases.length : ℝ)) ≠ 0 := by
    have h1 : c.phases ≠ [] := List.ne_nil_of_mem hp
    have h2 : 0 < c.phases.length := List.length_pos.mpr h1
    positivity
  simp only [Function.comp]
  rw [Finset.sum_const, Finset.card_range, ← Nat.cast_smul_eq_nsmul ℝ, smul_smul]
  apply congrFun
  apply congrArg
  field_simp

/-- C5 counterexample: on a two-phase aggregate with volume fractions 3/4 and
1/4 the code's average stress differs from the spec's volume-fraction-weighted
sum of grain stresses. -/
theorem claim_C5_counterexample :
    ¬ (run_vpsc cfgTwoPhase).sbar = spec_weighted_stress cfgTwoPhase := by
  intro h
  have hA : (run_vpsc cfgTwoPhase).sbar = ![2, 0, 0, 0, 0, 0] := by
    rw [(run_vpsc_state cfgTwoPhase (by norm_num [cfgTwoPhase])).1, avg_cfgTwoPhase]
  have hB : spec_weighted_stress cfgTwoPhase 0 = 3 / 2 := by
    rw [spec_weighted_stress,
      show cfgTwoPhase.phases = [phase_soft, phase_stiff] from rfl,
      show dbar_applied cfgTwoPhase = ![1, 0, 0, 0, 0, 0] from dbar_cfgCap1]
    simp [phase_soft, phase_stiff, Matrix.one_mulVec, Matrix.smul_mulVec_assoc]
    norm_num
  rw [hA] at h
  have h0 := congrFun h 0
  rw [hB] at h0
  norm_num at h0

/-- Witness for C5: the amended equal-phase-weight averaging on the concrete
two-phase configuration. -/
theorem claim_C5_witness :
    1 ≤ cfgTwoPhase.itmaxext ∧ (∀ p ∈ cfgTwoPhase.phases, 0 < p.ngrains) ∧
      (run_vpsc cfgTwoPhase).sbar =
        (cfgTwoPhase.phases.map fun p =>
          ∑ _igr ∈ Finset.range p.ngrains,
            (((cfgTwoPhase.phases.length : ℝ)) * ((p.ngrains : ℝ)))⁻¹ •
              (p.elastic_matrix *ᵥ dbar_applied cfgTwoPhase)).sum :=
  ⟨by norm_num [cfgTwoPhase],
    by simp [cfgTwoPhase, List.forall_mem_cons, phase_soft, phase_stiff],
    claim_C5_equal_phase_weights cfgTwoPhase (by norm_num [cfgTwoPhase])
      (by simp [cfgTwoPhase, List.forall_mem_cons, phase_soft, phase_stiff])⟩

/-- C6: the spec claims a step that fails to converge does not corrupt the
previously committed state.  The code commits `current_strain += dbar` and
`current_stress = sbar` unconditionally: on a concrete non-converging cap-1
step the convergence flag is false yet both committed fields change. -/
theorem claim_C6_state_committed_on_failure :
    (run_vpsc cfgCap1).converged = false ∧
      ¬ (run_vpsc cfgCap1).config.current_strain = cfgCap1.current_strain ∧
      ¬ (run_vpsc cfgCap1).config.current_stress = cfgCap1.current_stress := by
  have h2 : ¬ norm6 (avg_sbar cfgCap1) < cfgCap1.errs := by
    rw [avg_cfgCap1, norm6_e0]; norm_num [cfgCap1]
  rw [run_vpsc_cap_one_not_converged cfgCap1 rfl h2]
  refine ⟨rfl, ?_, ?_⟩
  · intro h
    have h0 := congrFun h 0
    rw [show cfgCap1.current_strain = 0 from rfl, dbar_cfgCap1] at h0
    norm_num at h0
  · intro h
    have h0 := congrFun h 0
    rw [show cfgCap1.current_stress = 0 from rfl, avg_cfgCap1] at h0
    norm_num at h0

/-! ## Claims about tensor.py and src/eshelby.py -/

set_option maxHeartbeats 1000000 in
/-- C7: for every symmetric 3x3 tensor, converting to the reduced
representation and back (`voigt` opt 2 then opt 1, and `chg_basis` opt 2 then
opt 1 with basis dimension 6) reproduces the tensor exactly in exact
arithmetic (hence within 1e-10 relative error), and all four conversions are
linear maps. -/
theorem claim_C7_roundtrip (T : Matrix (Fin 3) (Fin 3) ℝ)
    (hT : Matrix.transpose T = T) :
    voigt_opt1 (voigt_opt2 T) = T ∧
    chg_basis_opt1 (chg_basis_opt2 T) = T ∧
    (∀ (a : ℝ) (v w : Fin 6 → ℝ),
      voigt_opt1 (a • v + w) = a • voigt_opt1 v + voigt_opt1 w) ∧
    (∀ (a : ℝ) (M N : Matrix (Fin 3) (Fin 3) ℝ),
      voigt_opt2 (a • M + N) = a • voigt_opt2 M + voigt_opt2 N) ∧
    (∀ (a : ℝ) (v w : Fin 6 → ℝ),
      chg_basis_opt1 (a • v + w) = a • chg_basis_opt1 v + chg_basis_opt1 w) ∧
    (∀ (a : ℝ) (M N : Matrix (Fin 3) (Fin 3) ℝ),
      chg_basis_opt2 (a • M + N) = a • chg_basis_opt2 M + chg_basis_opt2 N) := by
  have s01 : T 1 0 = T 0 1 := by
    have h := congrFun (congrFun hT 1) 0
    simpa [Matrix.transpose_apply] using h.symm
  have s02 : T 2 0 = T 0 2 := by
    have h := congrFun (congrFun hT 2) 0
    simpa [Matrix.transpose_apply] using h.symm
  have s12 : T 2 1 = T 1 2 := by
    have h := congrFun (congrFun hT 2) 1
    simpa [Matrix.transpose_apply] using h.symm
  refine ⟨?_, ?_, ?_, ?_, ?_, ?_⟩
  · ext i j
    fin_cases i <;> fin_cases j <;>
      simp [voigt_opt1, voigt_opt2, ijv, s01, s02, s12]
  · have h2ne : Real.sqrt 2 ≠ 0 := by positivity
    have h3ne : Real.sqrt 3 ≠ 0 := by positivity
    have h6ne : Real.sqrt 6 ≠ 0 := by positivity
    have h2sq : Real.sqrt 2 ^ 2 = 2 := Real.sq_sqrt (by norm_num)
    have h3sq : Real.sqrt 3 ^ 2 = 3 := Real.sq_sqrt (by norm_num)
    have h6sq : Real.sqrt 6 ^ 2 = 6 := Real.sq_sqrt (by norm_num)
    ext i j
    fin_cases i <;> fin_cases j <;>
      simp only [chg_basis_opt1, chg_basis_opt2, Matrix.of_apply, Fin.sum_univ_six,
        Fin.sum_univ_three] <;>
      simp [Bmat, Matrix.vecHead, Matrix.vecTail, s01, s02, s12] <;>
      field_simp <;> ring_nf <;> simp only [h2sq, h3sq, h6sq] <;> ring_nf
  · intro a v w
    ext i j
    fin_cases i <;> fin_cases j <;> simp [voigt_opt1]
  · intro a M N
    rfl
  · intro a v w
    ext i j
    simp [chg_basis_opt1, Finset.sum_add_distrib, add_mul, mul_assoc, Finset.mul_sum]
  · intro a M N
    funext m
    simp [chg_basis_opt2, Finset.sum_add_distrib, add_mul, mul_assoc, Finset.mul_sum]

/-- Witness for C7 at a concrete symmetric tensor. -/
theorem claim_C7_witness :
    Matrix.transpose (Matrix.of ![![(1 : ℝ), 2, 3], ![2, 4, 5], ![3, 5, 6]]) =
      Matrix.of ![![(1 : ℝ), 2, 3], ![2, 4, 5], ![3, 5, 6]] ∧
    (voigt_opt1 (voigt_opt2 (Matrix.of ![![(1 : ℝ), 2, 3], ![2, 4, 5], ![3, 5, 6]])) =
        Matrix.of ![![(1 : ℝ), 2, 3], ![2, 4, 5], ![3, 5, 6]] ∧
      chg_basis_opt1 (chg_basis_opt2 (Matrix.of ![![(1 : ℝ), 2, 3], ![2, 4, 5], ![3, 5, 6]])) =
        Matrix.of ![![(1 : ℝ), 2, 3], ![2, 4, 5], ![3, 5, 6]] ∧
      (∀ (a : ℝ) (v w : Fin 6 → ℝ),
        voigt_opt1 (a • v + w) = a • voigt_opt1 v + voigt_opt1 w) ∧
      (∀ (a : ℝ) (M N : Matrix (Fin 3) (Fin 3) ℝ),
        voigt_opt2 (a • M + N) = a • voigt_opt2 M + voigt_opt2 N) ∧
      (∀ (a : ℝ) (v w : Fin 6 → ℝ),
        chg_basis_opt1 (a • v + w) = a • chg_basis_opt1 v + chg_basis_opt1 w) ∧
      (∀ (a : ℝ) (M N : Matrix (Fin 3) (Fin 3) ℝ),
        chg_basis_opt2 (a • M + N) = a • chg_basis_opt2 M + chg_basis_opt2 N)) :=
  ⟨by ext i j; fin_cases i <;> fin_cases j <;> rfl,
    claim_C7_roundtrip _ (by ext i j; fin_cases i <;> fin_cases j <;> rfl)⟩

/-- C8: the six fixed basis tensors built by chg_basis are pairwise
orthonormal: their pairwise inner products form the 6x6 identity. -/
theorem claim_C8_orthonormal (n m : Fin 6) :
    ∑ i : Fin 3, ∑ j : Fin 3, Bmat n i j * Bmat m i j = if n = m then 1 else 0 := by
  have h2 : Real.sqrt 2 * Real.sqrt 2 = 2 := Real.mul_self_sqrt (by norm_num)
  have h3 : Real.sqrt 3 * Real.sqrt 3 = 3 := Real.mul_self_sqrt (by norm_num)
  have h6 : Real.sqrt 6 * Real.sqrt 6 = 6 := Real.mul_self_sqrt (by norm_num)
  have h2ne : Real.sqrt 2 ≠ 0 := by positivity
  have h3ne : Real.sqrt 3 ≠ 0 := by positivity
  have h6ne : Real.sqrt 6 ≠ 0 := by positivity
  fin_cases n <;> fin_cases m <;>
    simp [Bmat, Fin.sum_univ_three, Matrix.of_apply, Matrix.vecHead, Matrix.vecTail] <;>
    field_simp <;> try linarith

/-! ### lu_inverse -/

lemma le_amax {k : ℕ} (A : Matrix (Fin (k + 1)) (Fin (k + 1)) ℝ) (i j : Fin (k + 1)) :
    |A i j| ≤ amax A :=
  Finset.le_sup' (fun p : Fin (k + 1) × Fin (k + 1) => |A p.1 p.2|) (Finset.mem_univ (i, j))

lemma amax_eq_zero_iff {k : ℕ} (A : Matrix (Fin (k + 1)) (Fin (k + 1)) ℝ) :
    amax A = 0 ↔ A = 0 := by
  constructor
  · intro h
    ext i j
    have h1 := le_amax A i j
    rw [h] at h1
    have h2 := abs_nonneg (A i j)
    have : |A i j| = 0 := le_antisymm h1 h2
    simpa using this
  · intro h
    subst h
    apply le_antisymm
    · apply Finset.sup'_le
      intro p _
      simp
    · have := le_amax (0 : Matrix (Fin (k + 1)) (Fin (k + 1)) ℝ) 0 0
      simpa using this

/-- C9: `lu_inverse` raises the singular-matrix error exactly when the
largest-magnitude entry is zero or the normalized matrix is singular; in
exact arithmetic this happens exactly when the matrix is singular, and
otherwise it returns `inv(A/amax)/amax`, which equals the exact inverse of
`A`, so the normalize-then-rescale scheme does not change the result. -/
theorem claim_C9_lu_inverse {k : ℕ} (A : Matrix (Fin (k + 1)) (Fin (k + 1)) ℝ) :
    ((∃ e, lu_inverse A = Except.error e) ↔
      (amax A = 0 ∨ ((amax A)⁻¹ • A).det = 0)) ∧
    ((amax A = 0 ∨ ((amax A)⁻¹ • A).det = 0) ↔ A.det = 0) ∧
    (A.det ≠ 0 →
      lu_inverse A = Except.ok ((amax A)⁻¹ • ((amax A)⁻¹ • A)⁻¹) ∧
      (amax A)⁻¹ • ((amax A)⁻¹ • A)⁻¹ = A⁻¹) := by
  by_cases h0 : amax A = 0
  · have hA0 : A = 0 := (amax_eq_zero_iff A).mp h0
    have hdet : A.det = 0 := by rw [hA0]; exact Matrix.det_zero ⟨0⟩
    refine ⟨iff_of_true ⟨_, by rw [lu_inverse, if_pos h0]⟩ (Or.inl h0),
      iff_of_true (Or.inl h0) hdet, fun hne => absurd hdet hne⟩
  · have hinv_ne : (amax A)⁻¹ ≠ 0 := inv_ne_zero h0
    have hdet_smul : ((amax A)⁻¹ • A).det = ((amax A)⁻¹) ^ (k + 1) * A.det := by
      rw [Matrix.det_smul]
      simp
    have hdet_iff : ((amax A)⁻¹ • A).det = 0 ↔ A.det = 0 := by
      rw [hdet_smul]
      constructor
      · intro h
        rcases mul_eq_zero.mp h with h | h
        · exact absurd h (pow_ne_zero _ hinv_ne)
        · exact h
      · intro h
        rw [h, mul_zero]
    by_cases hdA : A.det = 0
    · have hdn : ((amax A)⁻¹ • A).det = 0 := hdet_iff.mpr hdA
      refine ⟨iff_of_true ⟨"Singular matrix in lu_inverse", ?_⟩ (Or.inr hdn),
        iff_of_true (Or.inr hdn) hdA, fun hne => absurd hdA hne⟩
      rw [lu_inverse, if_neg h0]
      simp only [hdn, eq_self_iff_true, if_true, ite_true]
    · have hdn : ((amax A)⁻¹ • A).det ≠ 0 := fun h => hdA (hdet_iff.mp h)
      have hok : lu_inverse A = Except.ok ((amax A)⁻¹ • ((amax A)⁻¹ • A)⁻¹) := by
        rw [lu_inverse, if_neg h0]
        simp only [hdn, ite_false, if_false]
      have hval : (amax A)⁻¹ • ((amax A)⁻¹ • A)⁻¹ = A⁻¹ := by
        have hunit : IsUnit ((amax A)⁻¹ • A).det := isUnit_iff_ne_zero.mpr hdn
        have hAeq : A = amax A • ((amax A)⁻¹ • A) := by
          rw [smul_smul, mul_inv_cancel₀ h0, one_smul]
        have hAv : A * ((amax A)⁻¹ • ((amax A)⁻¹ • A)⁻¹) = 1 := by
          rw [Matrix.mul_smul]
          nth_rewrite 2 [hAeq]
          rw [Matrix.smul_mul, Matrix.mul_nonsing_inv _ hunit, smul_smul,
            inv_mul_cancel₀ h0, one_smul]
        exact (Matrix.inv_eq_right_inv hAv).symm
      refine ⟨?_, ?_, fun _ => ⟨hok, hval⟩⟩
      · constructor
        · intro ⟨e, he⟩
          rw [hok] at he
          exact absurd he (by simp)
        · intro h
          rcases h with h | h
          · exact absurd h h0
          · exact absurd h hdn
      · constructor
        · intro h
          rcases h with h | h
          · exact absurd h h0
          · exact absurd h hdn
        · intro h
          exact absurd h hdA

/-- Witness for C9 at the 1x1 identity matrix. -/
theorem claim_C9_witness :
    (1 : Matrix (Fin 1) (Fin 1) ℝ).det ≠ 0 ∧
      (lu_inverse (1 : Matrix (Fin 1) (Fin 1) ℝ) =
        Except.ok ((amax (1 : Matrix (Fin 1) (Fin 1) ℝ))⁻¹ •
          ((amax (1 : Matrix (Fin 1) (Fin 1) ℝ))⁻¹ • (1 : Matrix (Fin 1) (Fin 1) ℝ))⁻¹) ∧
       (amax (1 : Matrix (Fin 1) (Fin 1) ℝ))⁻¹ •
          ((amax (1 : Matrix (Fin 1) (Fin 1) ℝ))⁻¹ • (1 : Matrix (Fin 1) (Fin 1) ℝ))⁻¹ =
        (1 : Matrix (Fin 1) (Fin 1) ℝ)⁻¹) :=
  ⟨by simp, (claim_C9_lu_inverse (1 : Matrix (Fin 1) (Fin 1) ℝ)).2.2 (by simp)⟩

/-- C10: the spec claims the Eshelby-tensor computation fails with an
ill-conditioned-medium error when the effective modulus is not positive
definite.  The code has no failure path at all: it returns the zero
fourth-order tensor for every input, in particular for the negative-definite
modulus `-1`. -/
theorem claim_C10_eshelby_stub :
    (∀ C : Matrix (Fin 6) (Fin 6) ℝ, eshelby_tensor C = fun _ _ _ _ => 0) ∧
      ¬ Matrix.PosDef (-1 : Matrix (Fin 6) (Fin 6) ℝ) ∧
      eshelby_tensor (-1 : Matrix (Fin 6) (Fin 6) ℝ) = fun _ _ _ _ => 0 := by
  refine ⟨fun C => rfl, ?_, rfl⟩
  intro hpd
  have hx : (Pi.single 0 1 : Fin 6 → ℝ) ≠ 0 := by
    intro h
    have h0 := congrFun h 0
    simp [Pi.single_apply] at h0
  have hq := hpd.2 (Pi.single 0 1) hx
  simp [Matrix.neg_mulVec, Matrix.one_mulVec, Matrix.dotProduct, Pi.single_apply,
    Fin.sum_univ_six] at hq
  linarith

end VPSC
